import Mathlib

/-!
Verification of the training/inference/evaluation orchestration in
`src/NoGan.py` (class `NoGAN` and its helper `calc_score`), against the
repository's specification.  The Python code is shallowly embedded: tensors
sliced along the time axis become Lean lists, the stateful training loop
becomes an explicit event trace, fallible code returns `Except`.
-/

set_option maxRecDepth 4000
set_option maxHeartbeats 1000000

namespace NoGan

/-- The Python exception kinds the embedded code can raise. -/
inductive PyErr where
  | assertionErr
  | runtimeErr
  | zeroDivisionErr
  | unboundLocalErr
  | attributeErr (name : String)
deriving DecidableEq, Repr

/-! ## Python slicing along the first (time) axis

`dataset.data[video_idx][clip_index[0]:clip_index[1]]` (src/NoGan.py line 115)
slices a video tensor along the frame axis; after `unsqueeze_(0)` the slices
`imgs[:, :-1]` and `imgs[:, 1:]` act on the same axis.  A frame sequence is a
Lean list. -/

/-- Python slice `l[s:e]` for `0 ≤ s ≤ e` (clamped to the list's length). -/
def pySlice (l : List α) (s e : Nat) : List α := (l.drop s).take (e - s)

/-- Python slice `x[:-1]` along the time axis: all but the last frame. -/
def pyAllButLast (l : List α) : List α := l.dropLast

/-- Python slice `x[1:]` along the time axis: all but the first frame. -/
def pyFromOne (l : List α) : List α := l.drop 1

/-- The clip tensor `imgs` built at src/NoGan.py line 115 for the clip range
`[s, e)` of a video (batch dimension of size 1 abstracted away). -/
def clip_imgs (video : List α) (s e : Nat) : List α := pySlice video s e

/-- The tensor the generator is invoked on: `imgs[:, :-1]` (line 118). -/
def gen_input (video : List α) (s e : Nat) : List α :=
  pyAllButLast (clip_imgs video s e)

/-- The target of the instant and long-term prediction losses:
`imgs[:, 1:]` (lines 131-135). -/
def pred_target (video : List α) (s e : Nat) : List α :=
  pyFromOne (clip_imgs video s e)

/-- The target of the reconstruction loss: `imgs[:, :-1]` (lines 139-140). -/
def recon_target (video : List α) (s e : Nat) : List α :=
  pyAllButLast (clip_imgs video s e)

/-- The target of the context loss: `gt_context[:, :-1]` where
`gt_context = ContextNet(imgs[0])` (lines 119-120 and 126); `ctx` abstracts
the fixed context model applied frame by frame. -/
def context_target (ctx : α → β) (video : List α) (s e : Nat) : List β :=
  pyAllButLast ((clip_imgs video s e).map ctx)

theorem pySlice_length (l : List α) (s e : Nat) (h : e ≤ l.length) :
    (pySlice l s e).length = e - s := by
  simp only [pySlice, List.length_take, List.length_drop]
  omega

theorem pySlice_getElem? (l : List α) (s e i : Nat) :
    (pySlice l s e)[i]? = if i < e - s then l[s + i]? else none := by
  simp [pySlice, List.getElem?_take, List.getElem?_drop]

theorem dropLast_pySlice (l : List α) (s e : Nat) (h : e ≤ l.length) :
    (pySlice l s e).dropLast = pySlice l s (e - 1) := by
  rw [List.dropLast_eq_take, pySlice_length l s e h]
  simp only [pySlice, List.take_take]
  congr 1
  omega

/-- C2: for every clip range `[s, e)` with `e - s ≥ 2` fitting in the video,
the generator runs on frames `[s, e-1)` exactly (the last frame of the clip
excluded); the instant and long-term prediction losses target frames
`[s+1, e)`; the reconstruction loss targets frames `[s, e-1)`; and the
context loss targets the fixed context model's output on the clip with the
last frame of the context output dropped, which is the context embedding of
frames `[s, e-1)`. -/
theorem train_clip_index_alignment (ctx : α → β) (video : List α) (s e : Nat)
    (hfit : e ≤ video.length) (hlen : s + 2 ≤ e) :
    gen_input video s e = pySlice video s (e - 1) ∧
    pred_target video s e = pySlice video (s + 1) e ∧
    recon_target video s e = pySlice video s (e - 1) ∧
    context_target ctx video s e = (pySlice video s (e - 1)).map ctx ∧
    (∀ i, (gen_input video s e)[i]? =
      if s + i < e - 1 then video[s + i]? else none) ∧
    (∀ i, (pred_target video s e)[i]? =
      if s + 1 + i < e then video[s + 1 + i]? else none) := by
  have hg : gen_input video s e = pySlice video s (e - 1) :=
    dropLast_pySlice video s e hfit
  have hp : pred_target video s e = pySlice video (s + 1) e := by
    unfold pred_target pyFromOne clip_imgs pySlice
    rw [List.drop_take, List.drop_drop]
    congr 1
  refine ⟨hg, hp, hg, ?_, ?_, ?_⟩
  · unfold context_target pyAllButLast clip_imgs
    rw [← List.map_dropLast]
    show ((pySlice video s e).dropLast).map ctx = _
    rw [dropLast_pySlice video s e hfit]
  · intro i
    rw [hg, pySlice_getElem?]
    exact if_congr (by omega) rfl rfl
  · intro i
    rw [hp, pySlice_getElem?]
    exact if_congr (by omega) rfl rfl

/-! ## The scoring function `calc_score` (src/NoGan.py lines 264-281)

`calc_score` is a local, pure function of `NoGAN.evaluate`.  Its float tensor
becomes an integer-valued 4-D volume; the convolution, `np.max` and `np.where`
of lines 273-279 become explicit windowed sums and list folds over the
row-major flattening.  Note a rank defect in the source: line 275 hands each
*2-D* `(H, W)` per-frame map to `F.conv2d`, which accepts only 3-D (unbatched)
or 4-D (batched) input and raises `RuntimeError`, so for every volume with at
least one frame the function dies there and the max/argmax code of lines
277-279 is unreachable; the definitions below embed both the error behavior
(`calc_score`) and the computation lines 271-279 spell out
(`combineChannels`, `conv2dOnes`, `npMax`, `npWhereEqMax`, `npArgmaxRM`). -/

/-- A 4-D volume `(n, C, H, W)`: `n` frames of `C` channels of `H × W` maps;
`val f c i j` is entry `[f, c, i, j]` of the difference tensor. -/
structure Volume where
  n : Nat
  C : Nat
  H : Nat
  W : Nat
  val : Nat → Nat → Nat → Nat → Int

/-- `torch.sum(torch.abs(tensor) if power == 1 else tensor**2, dim=1)`
(line 271): the channels of frame `f` combined into one 2-D error map. -/
def combineChannels (v : Volume) (power : Int) (f : Nat) : Nat → Nat → Int :=
  fun i j =>
    ((List.range v.C).map
      (fun c => if power = 1 then |v.val f c i j| else (v.val f c i j) ^ 2)).sum

/-- `F.conv2d(item, weight, stride=1, padding=k//2)` with the all-ones `k × k`
kernel `weight = torch.ones(1, 1, k, k)` (lines 273-275): entry `(i, j)` of
the output is the sum of the zero-padded input over the `k × k` window whose
top-left corner sits at `(i - k/2, j - k/2)`.  For odd `k` the output has the
same `H × W` shape as the input. -/
def conv2dOnes (H W k : Nat) (m : Nat → Nat → Int) : Nat → Nat → Int :=
  fun i j =>
    ((List.range k).map (fun a =>
      ((List.range k).map (fun b =>
        let r : Int := (i : Int) + (a : Int) - (k / 2 : Nat)
        let c : Int := (j : Int) + (b : Int) - (k / 2 : Nat)
        if 0 ≤ r ∧ r < (H : Int) ∧ 0 ≤ c ∧ c < (W : Int) then
          m r.toNat c.toNat
        else 0)).sum)).sum

/-- The positions of an `H × W` map in row-major order (the order in which
`numpy` enumerates a 2-D array). -/
def rmIndexPairs (H W : Nat) : List (Nat × Nat) :=
  (List.range H).flatMap (fun i => (List.range W).map (fun j => (i, j)))

/-- A 2-D map flattened in row-major order. -/
def flatRM (H W : Nat) (m : Nat → Nat → Int) : List Int :=
  (rmIndexPairs H W).map (fun p => m p.1 p.2)

/-- `np.max` of an array (`0` as a sentinel for the empty array; line 277
is unreachable in the source whenever the volume has a frame, see
`calc_score`). -/
def npMax (l : List Int) : Int :=
  match l with
  | [] => 0
  | x :: xs => xs.foldl max x

/-- `np.where(heatmap == np.max(heatmap))` (line 278): every row-major
position attaining the maximum, in row-major order. -/
def npWhereEqMax (H W : Nat) (m : Nat → Nat → Int) : List (Nat × Nat) :=
  (rmIndexPairs H W).filter (fun p => decide (m p.1 p.2 = npMax (flatRM H W m)))

/-- `(position[0][0], position[1][0])` (line 279): the first entry of the
row/column arrays `np.where` returned, i.e. the first row-major position
attaining the maximum. -/
def npArgmaxRM (H W : Nat) (m : Nat → Nat → Int) : Nat × Nat :=
  (npWhereEqMax H W m).headD (0, 0)

/-- The value `calc_score` returns: the dict
`{"score": scores, "position": positions}` (line 281). -/
structure ScoreResult where
  score : List Int
  position : List (Nat × Nat)
deriving DecidableEq, Repr

/-- The convolved heatmap of frame `f` (lines 271-275). -/
def heatmapOf (v : Volume) (power : Int) (k : Nat) (f : Nat) : Nat → Nat → Int :=
  conv2dOnes v.H v.W k (combineChannels v power f)

/-- `calc_score(tensor, power, patch_size)` (src/NoGan.py lines 268-281).
The assert on line 269 is `power in (1, 2) and patch_size % 2`; Python's `%`
with the positive modulus 2 agrees with `Int.emod`, so every odd integer —
negative ones included — passes it.  Past the assert: a negative `patch_size`
makes `torch.ones(1, 1, patch_size, patch_size)` (line 273) raise
`RuntimeError`; otherwise the comprehension on line 275 hands the first
frame's 2-D `(H, W)` map to `F.conv2d`, which accepts only 3-D/4-D input and
raises `RuntimeError`, so every volume with at least one frame errors there
and the scores of lines 277-281 are never produced; only the degenerate empty
volume (no frames, so the comprehension never calls `F.conv2d`) returns, with
empty lists. -/
def calc_score (power patch_size : Int) (v : Volume) : Except PyErr ScoreResult :=
  if (power = 1 ∨ power = 2) ∧ patch_size % 2 ≠ 0 then
    if patch_size < 0 then .error .runtimeErr
    else if 0 < v.n then .error .runtimeErr
    else .ok { score := [], position := [] }
  else .error .assertionErr

theorem foldl_max_mem (l : List Int) : ∀ a : Int, l.foldl max a ∈ a :: l := by
  induction l with
  | nil => intro a; simp
  | cons x xs ih =>
    intro a
    rw [List.foldl_cons]
    rcases List.mem_cons.mp (ih (max a x)) with h2 | h2
    · rcases max_choice a x with h1 | h1 <;> rw [h2, h1] <;> simp
    · simp [h2]

theorem le_foldl_max (l : List Int) :
    ∀ a : Int, a ≤ l.foldl max a ∧ ∀ x ∈ l, x ≤ l.foldl max a := by
  induction l with
  | nil => intro a; exact ⟨le_refl a, by simp⟩
  | cons y ys ih =>
    intro a
    simp only [List.foldl_cons]
    refine ⟨le_trans (le_max_left a y) (ih (max a y)).1, ?_⟩
    intro x hx
    rcases List.mem_cons.mp hx with rfl | hx2
    · exact le_trans (le_max_right a x) (ih (max a x)).1
    · exact (ih (max a y)).2 x hx2

theorem npMax_mem (l : List Int) (h : l ≠ []) : npMax l ∈ l := by
  match l with
  | x :: xs => exact foldl_max_mem xs x

theorem le_npMax (l : List Int) (x : Int) (hx : x ∈ l) : x ≤ npMax l := by
  match l with
  | y :: ys =>
    rcases List.mem_cons.mp hx with rfl | h2
    · exact (le_foldl_max ys x).1
    · exact (le_foldl_max ys y).2 x h2

/-- The head of `l.filter p` is the first element of `l` satisfying `p`:
it occurs in `l` at an index before which every element fails `p`. -/
theorem filter_headD_first (p : α → Bool) (l : List α) (d : α)
    (hne : l.filter p ≠ []) :
    ∃ k : Nat, l[k]? = some ((l.filter p).headD d) ∧
      p ((l.filter p).headD d) = true ∧
      ∀ t : Nat, t < k → ∀ y, l[t]? = some y → p y = false := by
  induction l with
  | nil => simp at hne
  | cons a as ih =>
    by_cases hp : p a
    · refine ⟨0, ?_, ?_, ?_⟩
      · simp [List.filter_cons, hp]
      · simp [List.filter_cons, hp]
      · intro t ht; omega
    · have hf : (a :: as).filter p = as.filter p := by
        simp [List.filter_cons, hp]
      rw [hf] at hne ⊢
      obtain ⟨k, h1, h2, h3⟩ := ih hne
      refine ⟨k + 1, ?_, h2, ?_⟩
      · rw [List.getElem?_cons_succ]
        exact h1
      intro t ht y hy
      match t with
      | 0 =>
        rw [List.getElem?_cons_zero] at hy
        cases hy
        simpa using hp
      | t + 1 =>
        rw [List.getElem?_cons_succ] at hy
        exact h3 t (by omega) y hy

theorem rmIndexPairs_eq (H W : Nat) (hW : 0 < W) :
    rmIndexPairs H W = (List.range (H * W)).map (fun t => (t / W, t % W)) := by
  induction H with
  | zero => simp [rmIndexPairs]
  | succ H ih =>
    rw [rmIndexPairs, List.range_succ, List.flatMap_append, ← rmIndexPairs, ih,
      Nat.succ_mul, List.range_add, List.map_append, List.map_map]
    congr 1
    · simp only [List.flatMap_cons, List.flatMap_nil, List.append_nil]
      apply List.map_congr_left
      intro j hj
      rw [List.mem_range] at hj
      have e1 : H * W + j = j + W * H := by ring
      simp only [Function.comp_apply, e1]
      rw [Nat.add_mul_div_left _ _ hW, Nat.div_eq_of_lt hj,
        Nat.add_mul_mod_self_left, Nat.mod_eq_of_lt hj]
      simp

theorem length_rmIndexPairs (H W : Nat) (hW : 0 < W) :
    (rmIndexPairs H W).length = H * W := by
  rw [rmIndexPairs_eq H W hW, List.length_map, List.length_range]

theorem mem_rmIndexPairs (H W i j : Nat) :
    (i, j) ∈ rmIndexPairs H W ↔ i < H ∧ j < W := by
  simp only [rmIndexPairs, List.mem_flatMap, List.mem_map, List.mem_range,
    Prod.mk.injEq]
  constructor
  · rintro ⟨a, ha, b, hb, rfl, rfl⟩
    exact ⟨ha, hb⟩
  · rintro ⟨hi, hj⟩
    exact ⟨i, hi, j, hj, rfl, rfl⟩

theorem rmIndexPairs_getElem? (H W t : Nat) (hW : 0 < W) (ht : t < H * W) :
    (rmIndexPairs H W)[t]? = some (t / W, t % W) := by
  rw [rmIndexPairs_eq H W hW, List.getElem?_map, List.getElem?_range ht,
    Option.map_some']

theorem mem_flatRM (H W : Nat) (m : Nat → Nat → Int) (i j : Nat)
    (hi : i < H) (hj : j < W) : m i j ∈ flatRM H W m := by
  rw [flatRM, List.mem_map]
  exact ⟨(i, j), (mem_rmIndexPairs H W i j).mpr ⟨hi, hj⟩, rfl⟩

theorem flatRM_ne_nil (H W : Nat) (m : Nat → Nat → Int)
    (hH : 0 < H) (hW : 0 < W) : flatRM H W m ≠ [] := by
  intro h
  have h1 : (flatRM H W m).length = H * W := by
    rw [flatRM, List.length_map, length_rmIndexPairs H W hW]
  rw [h] at h1
  have := Nat.mul_pos hH hW
  simp at h1
  omega

theorem getD_map_range (n f : Nat) (g : Nat → α) (d : α) (hf : f < n) :
    ((List.range n).map g).getD f d = g f := by
  rw [List.getD_eq_getElem?_getD, List.getElem?_map, List.getElem?_range hf,
    Option.map_some', Option.getD_some]

/-- max/argmax facts for one heatmap: `npMax` bounds every entry and is
attained at `npArgmaxRM`, which is the first row-major position attaining
it. -/
theorem frame_max_spec (H W : Nat) (m : Nat → Nat → Int) (hH : 0 < H) (hW : 0 < W) :
    (∀ i j, i < H → j < W → m i j ≤ npMax (flatRM H W m)) ∧
    (npArgmaxRM H W m).1 < H ∧ (npArgmaxRM H W m).2 < W ∧
    m (npArgmaxRM H W m).1 (npArgmaxRM H W m).2 = npMax (flatRM H W m) ∧
    (∀ i j, i < H → j < W →
      i * W + j < (npArgmaxRM H W m).1 * W + (npArgmaxRM H W m).2 →
      m i j < npMax (flatRM H W m)) := by
  have hub : ∀ i j, i < H → j < W → m i j ≤ npMax (flatRM H W m) := by
    intro i j hi hj
    exact le_npMax _ _ (mem_flatRM H W m i j hi hj)
  have hMmem : npMax (flatRM H W m) ∈ flatRM H W m :=
    npMax_mem _ (flatRM_ne_nil H W m hH hW)
  have hfilne : (rmIndexPairs H W).filter
      (fun p => decide (m p.1 p.2 = npMax (flatRM H W m))) ≠ [] := by
    intro hnil
    rw [flatRM, List.mem_map] at hMmem
    obtain ⟨q, hq, hqv⟩ := hMmem
    have h5 := (List.filter_eq_nil_iff.mp hnil) q hq
    rw [decide_eq_true_eq] at h5
    exact h5 hqv
  obtain ⟨t, h1, h2, h3⟩ :=
    filter_headD_first (fun p => decide (m p.1 p.2 = npMax (flatRM H W m)))
      (rmIndexPairs H W) (0, 0) hfilne
  have hargmax : npArgmaxRM H W m =
      ((rmIndexPairs H W).filter
        (fun p => decide (m p.1 p.2 = npMax (flatRM H W m)))).headD (0, 0) := rfl
  rw [← hargmax] at h1 h2
  have ht : t < H * W := by
    obtain ⟨hlt, _⟩ := List.getElem?_eq_some.mp h1
    rwa [length_rmIndexPairs H W hW] at hlt
  have hposval : npArgmaxRM H W m = (t / W, t % W) := by
    rw [rmIndexPairs_getElem? H W t hW ht] at h1
    exact (Option.some_inj.mp h1).symm
  have hp1 : (npArgmaxRM H W m).1 = t / W := by rw [hposval]
  have hp2 : (npArgmaxRM H W m).2 = t % W := by rw [hposval]
  refine ⟨hub, ?_, ?_, ?_, ?_⟩
  · rw [hp1]
    exact (Nat.div_lt_iff_lt_mul hW).mpr (by omega)
  · rw [hp2]
    exact Nat.mod_lt _ hW
  · exact decide_eq_true_eq.mp h2
  · intro i j hi hj hlt
    have hdm : (npArgmaxRM H W m).1 * W + (npArgmaxRM H W m).2 = t := by
      rw [hp1, hp2, Nat.mul_comm]
      exact Nat.div_add_mod t W
    rw [hdm] at hlt
    have htj : i * W + j < H * W := by
      have h4 : i * W + j < (i + 1) * W := by
        rw [Nat.succ_mul]
        omega
      have h5 : (i + 1) * W ≤ H * W := Nat.mul_le_mul_right _ (by omega)
      omega
    have hget : (rmIndexPairs H W)[i * W + j]? = some (i, j) := by
      rw [rmIndexPairs_getElem? H W _ hW htj]
      have e1 : i * W + j = j + W * i := by ring
      rw [e1, Nat.add_mul_div_left _ _ hW, Nat.div_eq_of_lt hj,
        Nat.add_mul_mod_self_left, Nat.mod_eq_of_lt hj]
      simp
    have hfalse := h3 (i * W + j) hlt (i, j) hget
    rw [decide_eq_false_iff_not] at hfalse
    exact lt_of_le_of_ne (hub i j hi hj) hfalse

/-- A one-frame, one-channel volume holding a 1 × 2 map with entries 3 and
5 — a minimal well-formed input to `calc_score`. -/
def witVolume : Volume := ⟨1, 1, 1, 2, fun _ _ _ j => if j = 0 then 3 else 5⟩

/-- C4: the claim describes the scoring `calc_score` is meant to perform —
its own comment (lines 265-267) documents the `(n, C, H, W)` input and the
score/position output, and lines 271-279 spell out the computation — but the
code cannot reach it: line 275 hands the 2-D `(H, W)` per-frame error map to
`F.conv2d`, which accepts only 3-D (unbatched) or 4-D (batched) input, so for
every volume with at least one frame `calc_score` raises `RuntimeError`
inside the comprehension and never returns a score or a position.  Evaluated
here at the claim's own happy path: `power = 1`, positive odd
`patch_size = 5` (the defaults), a non-degenerate one-frame volume. -/
theorem calc_score_conv2d_rank_error :
    0 < witVolume.n ∧
      calc_score 1 5 witVolume = Except.error PyErr.runtimeErr := by
  exact ⟨by decide, rfl⟩

/-- C7 (amended): the precondition assert on line 269 rejects exactly the
calls where `power ∉ {1, 2}` or `patch_size` is even.  Oddness is tested by
Python's `%`, for which every odd integer — negative ones included — passes;
positivity of `patch_size` is not checked by the assertion. -/
theorem calc_score_assertionErr_iff (power patch_size : Int) (v : Volume) :
    calc_score power patch_size v = Except.error PyErr.assertionErr ↔
      ¬((power = 1 ∨ power = 2) ∧ Odd patch_size) := by
  unfold calc_score
  by_cases hg : (power = 1 ∨ power = 2) ∧ patch_size % 2 ≠ 0
  · rw [if_pos hg]
    have hodd : Odd patch_size := by
      rcases Int.emod_two_eq patch_size with h | h
      · exact absurd h hg.2
      · exact Int.odd_iff.mpr h
    constructor
    · intro h
      split at h
      · simp at h
      · split at h
        · simp at h
        · simp at h
    · intro h
      exact absurd ⟨hg.1, hodd⟩ h
  · rw [if_neg hg]
    constructor
    · intro _ hc
      exact hg ⟨hc.1, by rw [Int.odd_iff.mp hc.2]; omega⟩
    · intro _
      rfl

/-- Witness for C2 at the concrete video `[10, 20, 30, 40]` and clip range
`[1, 4)`. -/
theorem train_clip_index_alignment_witness :
    gen_input [10, 20, 30, 40] 1 4 = pySlice [10, 20, 30, 40] 1 (4 - 1) ∧
    pred_target [10, 20, 30, 40] 1 4 = pySlice [10, 20, 30, 40] (1 + 1) 4 ∧
    recon_target [10, 20, 30, 40] 1 4 = pySlice [10, 20, 30, 40] 1 (4 - 1) ∧
    context_target (fun n => n + 1) [10, 20, 30, 40] 1 4 =
      (pySlice [10, 20, 30, 40] 1 (4 - 1)).map (fun n => n + 1) ∧
    (∀ i, (gen_input [10, 20, 30, 40] 1 4)[i]? =
      if 1 + i < 4 - 1 then [10, 20, 30, 40][1 + i]? else none) ∧
    (∀ i, (pred_target [10, 20, 30, 40] 1 4)[i]? =
      if 1 + 1 + i < 4 then [10, 20, 30, 40][1 + 1 + i]? else none) :=
  train_clip_index_alignment (fun n => n + 1) [10, 20, 30, 40] 1 4
    (by decide) (by decide)

/-- A concrete volume: one frame, one channel, one 1 × 1 zero map. -/
def unitVolume : Volume := ⟨1, 1, 1, 1, fun _ _ _ _ => 0⟩

/-- C7 counterexample: `patch_size = -3` is not a positive odd integer, so by
the claim the precondition assertion should fail; it passes instead (Python
evaluates `-3 % 2` to `1`, which is truthy) and the call fails only later,
past the assert (`torch.ones` with a negative kernel size on line 273, or
`F.conv2d` on line 275), with a runtime error — not the assertion. -/
theorem calc_score_neg_patch_size_passes_assert :
    ¬(0 < (-3 : Int)) ∧
      calc_score 1 (-3) unitVolume = Except.error PyErr.runtimeErr ∧
      calc_score 1 (-3) unitVolume ≠ Except.error PyErr.assertionErr := by
  refine ⟨by decide, rfl, ?_⟩
  intro h
  rw [show calc_score 1 (-3) unitVolume = Except.error PyErr.runtimeErr from rfl] at h
  simp at h

/-! ## `NoGAN.evaluate` up to the differencing stage (src/NoGan.py lines 283-308)

Videos become lists of per-frame values, one integer per frame (the inner
`(C, H, W)` shape, equal on both sides in the claims at stake, is abstracted
away; only frame counts matter here).  Tensor subtraction broadcasts along the
leading (time) axis exactly as torch does: equal lengths subtract pointwise, a
length-1 side broadcasts against the other, anything else raises a
RuntimeError. -/

/-- torch subtraction `a - b` of two stacks of frames, broadcasting on the
leading axis. -/
def broadcastSub (a b : List Int) : Except PyErr (List Int) :=
  if a.length = b.length then .ok (List.zipWith (fun x y => x - y) a b)
  else if a.length = 1 then .ok (b.map (fun y => a.headD 0 - y))
  else if b.length = 1 then .ok (a.map (fun x => x - b.headD 0))
  else .error .runtimeErr

/-- A Python list comprehension of broadcast subtractions, evaluated left to
right, raising at the first failing pair. -/
def broadcastSubAll : List (List Int × List Int) → Except PyErr (List (List Int))
  | [] => .ok []
  | (a, b) :: rest =>
    match broadcastSub a b with
    | .error e => .error e
    | .ok d =>
      match broadcastSubAll rest with
      | .error e => .error e
      | .ok ds => .ok (d :: ds)

/-- `NoGAN.evaluate` from the assert on line 298 through the three difference
lists of lines 300-302: the assert compares only the four video counts
(`len(eval_data_list) == len(reconst_list) == len(instant_list) ==
len(longterm_list)`), then the code builds
`reconst_list[i] - eval_data_list[i][:-1]`,
`instant_list[i] - eval_data_list[i][1:]` and
`longterm_list[i] - eval_data_list[i][1:]`.  Scoring (`calc_score`, lines
306-308) happens strictly afterwards, so reaching `.ok` here is reaching the
scoring stage. -/
def evaluateDiffs (eval_data_list reconst_list instant_list longterm_list :
    List (List Int)) :
    Except PyErr (List (List Int) × List (List Int) × List (List Int)) :=
  if eval_data_list.length = reconst_list.length ∧
      reconst_list.length = instant_list.length ∧
      instant_list.length = longterm_list.length then
    match broadcastSubAll (reconst_list.zip (eval_data_list.map pyAllButLast)) with
    | .error e => .error e
    | .ok rd =>
      match broadcastSubAll (instant_list.zip (eval_data_list.map pyFromOne)) with
      | .error e => .error e
      | .ok idf =>
        match broadcastSubAll (longterm_list.zip (eval_data_list.map pyFromOne)) with
        | .error e => .error e
        | .ok ld => .ok (rd, idf, ld)
  else .error .assertionErr

theorem broadcastSub_ne_assertionErr (a b : List Int) :
    broadcastSub a b ≠ Except.error PyErr.assertionErr := by
  unfold broadcastSub
  split
  · simp
  · split
    · simp
    · split <;> simp

theorem broadcastSubAll_ne_assertionErr (ps : List (List Int × List Int)) :
    broadcastSubAll ps ≠ Except.error PyErr.assertionErr := by
  induction ps with
  | nil => simp [broadcastSubAll]
  | cons p rest ih =>
    obtain ⟨a, b⟩ := p
    unfold broadcastSubAll
    cases hs : broadcastSub a b with
    | error e =>
      intro hcontra
      simp only [hs] at hcontra
      cases hcontra
      exact broadcastSub_ne_assertionErr a b hs
    | ok d =>
      cases hr : broadcastSubAll rest with
      | error e =>
        intro hcontra
        simp only [hs, hr] at hcontra
        cases hcontra
        exact ih hr
      | ok ds => simp [hs, hr]

theorem broadcastSubAll_ok_of_eq (ps : List (List Int × List Int))
    (h : ∀ p ∈ ps, p.1.length = p.2.length) :
    ∃ ds, broadcastSubAll ps = Except.ok ds := by
  induction ps with
  | nil => exact ⟨[], rfl⟩
  | cons p rest ih =>
    obtain ⟨a, b⟩ := p
    have h1 : a.length = b.length := h (a, b) (List.mem_cons_self _ _)
    obtain ⟨ds, hds⟩ := ih (fun q hq => h q (List.mem_cons_of_mem _ hq))
    refine ⟨List.zipWith (fun x y => x - y) a b :: ds, ?_⟩
    unfold broadcastSubAll broadcastSub
    rw [if_pos h1, hds]

/-- C8 (amended): the precondition assert of `evaluate` (line 298) checks
exactly the four video counts — it fires iff those mismatch — and when the
video counts and every per-video frame count match (each prediction video
holding one frame fewer than its ground-truth video), the differencing stage
completes without error and scoring is reached.  Per-video frame counts are
*not* covered by the assert: their mismatches surface only later, in tensor
broadcasting. -/
theorem evaluate_assert_checks_video_counts_only
    (e r i l : List (List Int)) :
    (evaluateDiffs e r i l = Except.error PyErr.assertionErr ↔
      ¬(e.length = r.length ∧ r.length = i.length ∧ i.length = l.length)) ∧
    ((e.length = r.length ∧ r.length = i.length ∧ i.length = l.length ∧
      (∀ k, k < e.length →
        (r.getD k []).length = (e.getD k []).length - 1 ∧
        (i.getD k []).length = (e.getD k []).length - 1 ∧
        (l.getD k []).length = (e.getD k []).length - 1)) →
      ∃ out, evaluateDiffs e r i l = Except.ok out) := by
  constructor
  · by_cases hlen : e.length = r.length ∧ r.length = i.length ∧
        i.length = l.length
    · refine iff_of_false ?_ (not_not_intro hlen)
      intro hcontra
      rw [evaluateDiffs, if_pos hlen] at hcontra
      cases h1 : broadcastSubAll (r.zip (e.map pyAllButLast)) with
      | error e1 =>
        rw [h1] at hcontra
        cases hcontra
        exact broadcastSubAll_ne_assertionErr _ h1
      | ok rd =>
        rw [h1] at hcontra
        cases h2 : broadcastSubAll (i.zip (e.map pyFromOne)) with
        | error e2 =>
          rw [h2] at hcontra
          cases hcontra
          exact broadcastSubAll_ne_assertionErr _ h2
        | ok idf =>
          rw [h2] at hcontra
          cases h3 : broadcastSubAll (l.zip (e.map pyFromOne)) with
          | error e3 =>
            rw [h3] at hcontra
            cases hcontra
            exact broadcastSubAll_ne_assertionErr _ h3
          | ok ld =>
            rw [h3] at hcontra
            cases hcontra
    · exact iff_of_true (by rw [evaluateDiffs, if_neg hlen]) hlen
  · rintro ⟨h1, h2, h3, hfr⟩
    have hok : ∀ (preds : List (List Int)) (adj : List Int → List Int),
        preds.length = e.length →
        (∀ k, k < e.length → (preds.getD k []).length = (adj (e.getD k [])).length) →
        ∃ ds, broadcastSubAll (preds.zip (e.map adj)) = Except.ok ds := by
      intro preds adj hplen hfit
      apply broadcastSubAll_ok_of_eq
      intro p hp
      obtain ⟨n, hn, hval⟩ := List.mem_iff_getElem.mp hp
      have hne : n < e.length := by
        rw [List.length_zip, List.length_map] at hn
        omega
      have hnp : n < preds.length := by omega
      have hnm : n < (e.map adj).length := by
        rw [List.length_map]
        exact hne
      rw [List.getElem_zip] at hval
      have hfst : p.1 = preds[n] := by rw [← hval]
      have hsnd : p.2 = (e.map adj)[n] := by rw [← hval]
      rw [hfst, hsnd, List.getElem_map]
      have hone := hfit n hne
      rw [List.getD_eq_getElem preds [] hnp, List.getD_eq_getElem e [] hne] at hone
      exact hone
    obtain ⟨rd, hrd⟩ := hok r pyAllButLast h1.symm
      (fun k hk => by
        rw [pyAllButLast, List.length_dropLast]
        exact (hfr k hk).1)
    obtain ⟨idf, hidf⟩ := hok i pyFromOne (by omega)
      (fun k hk => by
        rw [pyFromOne, List.length_drop]
        exact (hfr k hk).2.1)
    obtain ⟨ld, hld⟩ := hok l pyFromOne (by omega)
      (fun k hk => by
        rw [pyFromOne, List.length_drop]
        exact (hfr k hk).2.2)
    refine ⟨(rd, idf, ld), ?_⟩
    rw [evaluateDiffs, if_pos ⟨h1, h2, h3⟩, hrd, hidf, hld]

/-- C8 counterexample: the ground-truth video has 3 frames, the reconstruction
branch has 1 frame where 2 are expected — a per-video frame-count mismatch —
yet `evaluate` raises nothing: the subtraction broadcasts the single frame and
the call reaches the scoring stage with silently wrong data, where the claim
demands a fatal error before scoring. -/
theorem evaluate_frame_mismatch_not_checked :
    ([5] : List Int).length ≠ ([1, 2, 3] : List Int).length - 1 ∧
      evaluateDiffs [[1, 2, 3]] [[5]] [[7, 7]] [[7, 7]] =
        Except.ok ([[4, 3]], [[5, 4]], [[5, 4]]) := by
  exact ⟨by decide, rfl⟩

/-! ## Checkpoint and artifact naming (src/NoGan.py lines 15, 74-76, 85, 179,
194, 202, 207, 260) -/

/-- Python `str.zfill`: left-pad with `'0'` to the given width. -/
def zfill (w : Nat) (s : String) : String :=
  String.mk (List.replicate (w - s.length) '0') ++ s

/-- `"model_epoch_%s.pkl" % str(k).zfill(LEN_ZFILL)` with `LEN_ZFILL = 5`. -/
def modelFilename (k : Nat) : String :=
  "model_epoch_" ++ zfill 5 (toString k) ++ ".pkl"

/-- `"gen_epoch_%s.png" % str(k).zfill(LEN_ZFILL)` (line 194). -/
def imageFilename (k : Nat) : String :=
  "gen_epoch_" ++ zfill 5 (toString k) ++ ".png"

/-- `'out_epoch_%s_data_%s.pt' % (str(epoch).zfill(LEN_ZFILL), data_set)`
(line 260): the inference artifact key `(epoch, split)`. -/
def outputFilename (epoch : Nat) (data_set : String) : String :=
  "out_epoch_" ++ zfill 5 (toString epoch) ++ "_data_" ++ data_set ++ ".pt"

/-! ## The training loop `NoGAN.train` as an event trace (src/NoGan.py lines
80-202)

The two-level loop — epochs, then videos yielded by the shuffled loader, then
clips — is embedded as a trace of observable events.  `D` lists each video's
clip list (`dataset`); `orders e` is the order in which the loader yields the
video indices in epoch `e` (`shuffle=True`); `B` is
`dataset.get_num_of_batchs()` — modelled from the spec: the loader's batching
policy is an external collaborator, the spec calls this quantity
`total_batches_per_epoch`, the total number of clips one epoch processes.
Events carry the position `v` of the video in `D` and the position `c` of the
clip in its video's clip list. -/

abbrev Clip := Nat × Nat

/-- One observable event of a `NoGAN.train` run. -/
inductive Event where
  | loadM (filename : String)
  | zeroGrad (v : Nat)
  | genRun (v c : Nat)
  | lossesComputed (v c : Nat)
  | backward (v c : Nat)
  | optStep (v c : Nat)
  | logScalar (tag : String) (step : Nat)
  | saveM (filename : String)
  | saveImage (filename : String)
deriving DecidableEq, Repr

/-- Occurrences of an event in a trace. -/
def countE (x : Event) (l : List Event) : Nat :=
  (l.filter (fun y => decide (y = x))).length

/-- The global steps of the scalar-series emissions carrying `tag`, in trace
order. -/
def logsOf (tag : String) (l : List Event) : List Nat :=
  l.filterMap (fun ev => match ev with
    | Event.logScalar t s => if t = tag then some s else none
    | _ => none)

/-- The checkpoint filenames written, in trace order. -/
def savesOf (l : List Event) : List String :=
  l.filterMap (fun ev => match ev with
    | Event.saveM f => some f
    | _ => none)

/-- The tags of the four scalar series, in the order the `info` dict of lines
165-170 emits them. -/
def lossTags : List String :=
  ["Loss context", "Loss reconst", "Loss instant", "Loss longterm"]

/-- The events of one clip iteration (lines 113-175): generator forward pass
on `imgs[:, :-1]`, the four losses, `loss.backward()`, `optimizer.step()`,
then one `add_scalar` per loss term at global step
`epoch * total_batch_num + iter_count` (lines 163-173). -/
def clipEvents (B epoch iter v c : Nat) : List Event :=
  [Event.genRun v c, Event.lossesComputed v c, Event.backward v c,
   Event.optStep v c,
   Event.logScalar "Loss context" (epoch * B + iter),
   Event.logScalar "Loss reconst" (epoch * B + iter),
   Event.logScalar "Loss instant" (epoch * B + iter),
   Event.logScalar "Loss longterm" (epoch * B + iter)]

/-- The clip loop of one video (lines 113-175): `c` numbers the clips inside
the video, `iter` carries `iter_count` across the epoch. -/
def clipsEvents (B epoch v : Nat) : Nat → Nat → List Clip → List Event
  | _, _, [] => []
  | c, iter, _ :: rest =>
      clipEvents B epoch iter v c ++ clipsEvents B epoch v (c + 1) (iter + 1) rest

/-- The video loop of one epoch (lines 109-175): `AnomaNet.zero_grad()` once
per video (line 110), then that video's clips. -/
def videosEvents (D : List (List Clip)) (B epoch : Nat) :
    Nat → List Nat → List Event
  | _, [] => []
  | iter, v :: vs =>
      (Event.zeroGrad v :: clipsEvents B epoch v 0 iter (D.getD v [])) ++
        videosEvents D B epoch (iter + (D.getD v []).length) vs

/-- The number of clips one epoch processes when the loader yields the videos
in `order`. -/
def totalClips (D : List (List Clip)) (order : List Nat) : Nat :=
  (order.map (fun v => (D.getD v []).length)).sum

/-- What one epoch leaves behind: its events, whether the loop variables
`imgs`, `out_*` (initialised to `None` on line 102, assigned at every clip)
hold tensors, and a raised exception, if any. -/
structure EpochOut where
  events : List Event
  hasImgs : Bool
  err : Option PyErr

/-- One iteration of the epoch loop (lines 105-194): the video loop, then —
when `(epoch + 1) % save_every_x_epochs == 0` — the checkpoint save (line
179) followed by the image grid (lines 182-194), which dereferences the
`imgs` / `out_*` variables — still `None` then — and so raises
`AttributeError` when no clip was ever
processed.  `save_every_x_epochs = 0` raises `ZeroDivisionError` at the `%`
itself. -/
def epochBlock (D : List (List Clip)) (orders : Nat → List Nat)
    (B N epoch : Nat) (hI : Bool) : EpochOut :=
  let evs := videosEvents D B epoch 0 (orders epoch)
  let hI2 := hI || decide (0 < totalClips D (orders epoch))
  if N = 0 then ⟨evs, hI2, some PyErr.zeroDivisionErr⟩
  else if (epoch + 1) % N = 0 then
    if hI2 then
      ⟨evs ++ [Event.saveM (modelFilename (epoch + 1)),
               Event.saveImage (imageFilename (epoch + 1))], hI2, none⟩
    else ⟨evs ++ [Event.saveM (modelFilename (epoch + 1))], hI2,
          some (PyErr.attributeErr "data")⟩
  else ⟨evs, hI2, none⟩

/-- The epoch loop, `n` epochs starting at `e`, stopping at the first raised
exception. -/
def runEpochs (D : List (List Clip)) (orders : Nat → List Nat) (B N : Nat) :
    Nat → Nat → Bool → EpochOut
  | _, 0, hI => ⟨[], hI, none⟩
  | e, n + 1, hI =>
      let r := epochBlock D orders B N e hI
      match r.err with
      | some er => ⟨r.events, r.hasImgs, some er⟩
      | none =>
          let r2 := runEpochs D orders B N (e + 1) n r.hasImgs
          ⟨r.events ++ r2.events, r2.hasImgs, r2.err⟩

/-- A finished (or aborted) `NoGAN.train` call: its events and its raised
exception, if any. -/
structure TrainResult where
  events : List Event
  err : Option PyErr

/-- `NoGAN.train(epoch_start, epoch_end, batch_size, save_every_x_epochs)`
(lines 80-202): the optional resume load (lines 84-85), the epoch loop, and
the final unconditional save (lines 200-202), which reads the loop variable
`epoch`; when the range `[eS, eE)` is empty that variable was never bound and
Python raises `UnboundLocalError` before any save. -/
def runTrain (D : List (List Clip)) (orders : Nat → List Nat)
    (B N eS eE : Nat) : TrainResult :=
  let pre : List Event := if 0 < eS then [Event.loadM (modelFilename eS)] else []
  let r := runEpochs D orders B N eS (eE - eS) false
  match r.err with
  | some er => ⟨pre ++ r.events, some er⟩
  | none =>
      if eS < eE then
        if N = 0 then ⟨pre ++ r.events, some PyErr.zeroDivisionErr⟩
        else if eE % N ≠ 0 then
          ⟨pre ++ r.events ++ [Event.saveM (modelFilename eE)], none⟩
        else ⟨pre ++ r.events, none⟩
      else ⟨pre ++ r.events, some PyErr.unboundLocalErr⟩

theorem countE_nil (x : Event) : countE x [] = 0 := rfl

theorem countE_cons (x y : Event) (l : List Event) :
    countE x (y :: l) = countE x l + (if y = x then 1 else 0) := by
  unfold countE
  rw [List.filter_cons]
  by_cases h : y = x
  · simp [h]
  · simp [h]

theorem countE_append (x : Event) (l1 l2 : List Event) :
    countE x (l1 ++ l2) = countE x l1 + countE x l2 := by
  unfold countE
  rw [List.filter_append, List.length_append]

theorem logsOf_append (tag : String) (l1 l2 : List Event) :
    logsOf tag (l1 ++ l2) = logsOf tag l1 ++ logsOf tag l2 := by
  unfold logsOf
  rw [List.filterMap_append]

theorem savesOf_append (l1 l2 : List Event) :
    savesOf (l1 ++ l2) = savesOf l1 ++ savesOf l2 := by
  unfold savesOf
  rw [List.filterMap_append]

theorem countE_zeroGrad_clipEvents (B epoch iter v c u : Nat) :
    countE (Event.zeroGrad u) (clipEvents B epoch iter v c) = 0 := by
  simp [clipEvents, countE, List.filter_cons]

theorem countE_genRun_clipEvents (B epoch iter v c u d : Nat) :
    countE (Event.genRun u d) (clipEvents B epoch iter v c) =
      if v = u ∧ c = d then 1 else 0 := by
  by_cases h1 : v = u
  · by_cases h2 : c = d
    · subst h1; subst h2
      simp [clipEvents, countE, List.filter_cons]
    · simp [clipEvents, countE, List.filter_cons, h1, h2]
  · simp [clipEvents, countE, List.filter_cons, h1]

theorem countE_lossesComputed_clipEvents (B epoch iter v c u d : Nat) :
    countE (Event.lossesComputed u d) (clipEvents B epoch iter v c) =
      if v = u ∧ c = d then 1 else 0 := by
  by_cases h1 : v = u
  · by_cases h2 : c = d
    · subst h1; subst h2
      simp [clipEvents, countE, List.filter_cons]
    · simp [clipEvents, countE, List.filter_cons, h1, h2]
  · simp [clipEvents, countE, List.filter_cons, h1]

theorem countE_backward_clipEvents (B epoch iter v c u d : Nat) :
    countE (Event.backward u d) (clipEvents B epoch iter v c) =
      if v = u ∧ c = d then 1 else 0 := by
  by_cases h1 : v = u
  · by_cases h2 : c = d
    · subst h1; subst h2
      simp [clipEvents, countE, List.filter_cons]
    · simp [clipEvents, countE, List.filter_cons, h1, h2]
  · simp [clipEvents, countE, List.filter_cons, h1]

theorem countE_optStep_clipEvents (B epoch iter v c u d : Nat) :
    countE (Event.optStep u d) (clipEvents B epoch iter v c) =
      if v = u ∧ c = d then 1 else 0 := by
  by_cases h1 : v = u
  · by_cases h2 : c = d
    · subst h1; subst h2
      simp [clipEvents, countE, List.filter_cons]
    · simp [clipEvents, countE, List.filter_cons, h1, h2]
  · simp [clipEvents, countE, List.filter_cons, h1]

theorem logsOf_clipEvents (tag : String) (B epoch iter v c : Nat)
    (htag : tag ∈ lossTags) :
    logsOf tag (clipEvents B epoch iter v c) = [epoch * B + iter] := by
  fin_cases htag <;> rfl

theorem savesOf_clipEvents (B epoch iter v c : Nat) :
    savesOf (clipEvents B epoch iter v c) = [] := rfl

theorem countE_zeroGrad_clipsEvents (B epoch v u : Nat) (clips : List Clip) :
    ∀ c iter : Nat,
      countE (Event.zeroGrad u) (clipsEvents B epoch v c iter clips) = 0 := by
  induction clips with
  | nil => intro c iter; rfl
  | cons cl rest ih =>
    intro c iter
    simp only [clipsEvents, countE_append, countE_zeroGrad_clipEvents, ih]

theorem countE_genRun_clipsEvents (B epoch v u d : Nat) (clips : List Clip) :
    ∀ c iter : Nat,
      countE (Event.genRun u d) (clipsEvents B epoch v c iter clips) =
        if v = u ∧ c ≤ d ∧ d < c + clips.length then 1 else 0 := by
  induction clips with
  | nil =>
    intro c iter
    rw [if_neg (by rintro ⟨_, h1, h2⟩; simp at h2; omega)]
    rfl
  | cons cl rest ih =>
    intro c iter
    simp only [clipsEvents, countE_append, countE_genRun_clipEvents, ih,
      List.length_cons]
    split_ifs <;> omega

theorem countE_lossesComputed_clipsEvents (B epoch v u d : Nat)
    (clips : List Clip) :
    ∀ c iter : Nat,
      countE (Event.lossesComputed u d) (clipsEvents B epoch v c iter clips) =
        if v = u ∧ c ≤ d ∧ d < c + clips.length then 1 else 0 := by
  induction clips with
  | nil =>
    intro c iter
    rw [if_neg (by rintro ⟨_, h1, h2⟩; simp at h2; omega)]
    rfl
  | cons cl rest ih =>
    intro c iter
    simp only [clipsEvents, countE_append, countE_lossesComputed_clipEvents, ih,
      List.length_cons]
    split_ifs <;> omega

theorem countE_backward_clipsEvents (B epoch v u d : Nat) (clips : List Clip) :
    ∀ c iter : Nat,
      countE (Event.backward u d) (clipsEvents B epoch v c iter clips) =
        if v = u ∧ c ≤ d ∧ d < c + clips.length then 1 else 0 := by
  induction clips with
  | nil =>
    intro c iter
    rw [if_neg (by rintro ⟨_, h1, h2⟩; simp at h2; omega)]
    rfl
  | cons cl rest ih =>
    intro c iter
    simp only [clipsEvents, countE_append, countE_backward_clipEvents, ih,
      List.length_cons]
    split_ifs <;> omega

theorem countE_optStep_clipsEvents (B epoch v u d : Nat) (clips : List Clip) :
    ∀ c iter : Nat,
      countE (Event.optStep u d) (clipsEvents B epoch v c iter clips) =
        if v = u ∧ c ≤ d ∧ d < c + clips.length then 1 else 0 := by
  induction clips with
  | nil =>
    intro c iter
    rw [if_neg (by rintro ⟨_, h1, h2⟩; simp at h2; omega)]
    rfl
  | cons cl rest ih =>
    intro c iter
    simp only [clipsEvents, countE_append, countE_optStep_clipEvents, ih,
      List.length_cons]
    split_ifs <;> omega

theorem logsOf_clipsEvents (tag : String) (B epoch v : Nat)
    (htag : tag ∈ lossTags) (clips : List Clip) :
    ∀ c iter : Nat,
      logsOf tag (clipsEvents B epoch v c iter clips) =
        List.range' (epoch * B + iter) clips.length := by
  induction clips with
  | nil => intro c iter; rfl
  | cons cl rest ih =>
    intro c iter
    simp only [clipsEvents, logsOf_append, logsOf_clipEvents tag B epoch iter v c htag,
      ih, List.length_cons, List.range'_succ]
    rfl

theorem savesOf_clipsEvents (B epoch v : Nat) (clips : List Clip) :
    ∀ c iter : Nat, savesOf (clipsEvents B epoch v c iter clips) = [] := by
  induction clips with
  | nil => intro c iter; rfl
  | cons cl rest ih =>
    intro c iter
    simp only [clipsEvents, savesOf_append, ih]
    rfl

theorem logsOf_cons_zeroGrad (tag : String) (v : Nat) (l : List Event) :
    logsOf tag (Event.zeroGrad v :: l) = logsOf tag l := rfl

theorem savesOf_cons_zeroGrad (v : Nat) (l : List Event) :
    savesOf (Event.zeroGrad v :: l) = savesOf l := rfl

theorem countE_zeroGrad_videosEvents (D : List (List Clip)) (B epoch u : Nat)
    (order : List Nat) :
    ∀ iter : Nat,
      countE (Event.zeroGrad u) (videosEvents D B epoch iter order) =
        order.count u := by
  induction order with
  | nil => intro iter; rfl
  | cons v vs ih =>
    intro iter
    simp only [videosEvents, countE_append, countE_cons,
      countE_zeroGrad_clipsEvents, ih, List.count_cons, beq_iff_eq,
      Event.zeroGrad.injEq]
    split_ifs <;> omega

theorem countE_cons_ne (x y : Event) (l : List Event) (h : ¬y = x) :
    countE x (y :: l) = countE x l := by
  rw [countE_cons, if_neg h, Nat.add_zero]

theorem countE_genRun_videosEvents (D : List (List Clip)) (B epoch u d : Nat)
    (order : List Nat) :
    ∀ iter : Nat,
      countE (Event.genRun u d) (videosEvents D B epoch iter order) =
        order.count u * (if d < (D.getD u []).length then 1 else 0) := by
  induction order with
  | nil =>
    intro iter
    simp [videosEvents, countE_nil]
  | cons v vs ih =>
    intro iter
    simp only [videosEvents]
    rw [countE_append, countE_cons_ne _ _ _ (by simp),
      countE_genRun_clipsEvents, ih]
    simp only [List.count_cons, beq_iff_eq]
    by_cases hv : v = u
    · subst hv
      by_cases hd : d < (D.getD v []).length
      · rw [if_pos ⟨rfl, Nat.zero_le _, by omega⟩, if_pos hd, if_pos rfl]
        omega
      · rw [if_neg (by rintro ⟨_, _, hcon⟩; omega), if_neg hd, if_pos rfl]
        omega
    · rw [if_neg (by rintro ⟨h, _⟩; exact hv h), if_neg hv]
      simp

theorem countE_lossesComputed_videosEvents (D : List (List Clip))
    (B epoch u d : Nat) (order : List Nat) :
    ∀ iter : Nat,
      countE (Event.lossesComputed u d) (videosEvents D B epoch iter order) =
        order.count u * (if d < (D.getD u []).length then 1 else 0) := by
  induction order with
  | nil =>
    intro iter
    simp [videosEvents, countE_nil]
  | cons v vs ih =>
    intro iter
    simp only [videosEvents]
    rw [countE_append, countE_cons_ne _ _ _ (by simp),
      countE_lossesComputed_clipsEvents, ih]
    simp only [List.count_cons, beq_iff_eq]
    by_cases hv : v = u
    · subst hv
      by_cases hd : d < (D.getD v []).length
      · rw [if_pos ⟨rfl, Nat.zero_le _, by omega⟩, if_pos hd, if_pos rfl]
        omega
      · rw [if_neg (by rintro ⟨_, _, hcon⟩; omega), if_neg hd, if_pos rfl]
        omega
    · rw [if_neg (by rintro ⟨h, _⟩; exact hv h), if_neg hv]
      simp

theorem countE_backward_videosEvents (D : List (List Clip))
    (B epoch u d : Nat) (order : List Nat) :
    ∀ iter : Nat,
      countE (Event.backward u d) (videosEvents D B epoch iter order) =
        order.count u * (if d < (D.getD u []).length then 1 else 0) := by
  induction order with
  | nil =>
    intro iter
    simp [videosEvents, countE_nil]
  | cons v vs ih =>
    intro iter
    simp only [videosEvents]
    rw [countE_append, countE_cons_ne _ _ _ (by simp),
      countE_backward_clipsEvents, ih]
    simp only [List.count_cons, beq_iff_eq]
    by_cases hv : v = u
    · subst hv
      by_cases hd : d < (D.getD v []).length
      · rw [if_pos ⟨rfl, Nat.zero_le _, by omega⟩, if_pos hd, if_pos rfl]
        omega
      · rw [if_neg (by rintro ⟨_, _, hcon⟩; omega), if_neg hd, if_pos rfl]
        omega
    · rw [if_neg (by rintro ⟨h, _⟩; exact hv h), if_neg hv]
      simp

theorem countE_optStep_videosEvents (D : List (List Clip))
    (B epoch u d : Nat) (order : List Nat) :
    ∀ iter : Nat,
      countE (Event.optStep u d) (videosEvents D B epoch iter order) =
        order.count u * (if d < (D.getD u []).length then 1 else 0) := by
  induction order with
  | nil =>
    intro iter
    simp [videosEvents, countE_nil]
  | cons v vs ih =>
    intro iter
    simp only [videosEvents]
    rw [countE_append, countE_cons_ne _ _ _ (by simp),
      countE_optStep_clipsEvents, ih]
    simp only [List.count_cons, beq_iff_eq]
    by_cases hv : v = u
    · subst hv
      by_cases hd : d < (D.getD v []).length
      · rw [if_pos ⟨rfl, Nat.zero_le _, by omega⟩, if_pos hd, if_pos rfl]
        omega
      · rw [if_neg (by rintro ⟨_, _, hcon⟩; omega), if_neg hd, if_pos rfl]
        omega
    · rw [if_neg (by rintro ⟨h, _⟩; exact hv h), if_neg hv]
      simp

theorem logsOf_videosEvents (tag : String) (htag : tag ∈ lossTags)
    (D : List (List Clip)) (B epoch : Nat) (order : List Nat) :
    ∀ iter : Nat,
      logsOf tag (videosEvents D B epoch iter order) =
        List.range' (epoch * B + iter) (totalClips D order) := by
  induction order with
  | nil => intro iter; rfl
  | cons v vs ih =>
    intro iter
    simp only [videosEvents]
    rw [logsOf_append, logsOf_cons_zeroGrad,
      logsOf_clipsEvents tag B epoch v htag _ 0 iter, ih]
    have h1 : epoch * B + (iter + (D.getD v []).length) =
        (epoch * B + iter) + 1 * (D.getD v []).length := by ring
    rw [h1, List.range'_append]
    congr 1
    simp only [totalClips, List.map_cons, List.sum_cons]
    omega

theorem savesOf_videosEvents (D : List (List Clip)) (B epoch : Nat)
    (order : List Nat) :
    ∀ iter : Nat, savesOf (videosEvents D B epoch iter order) = [] := by
  induction order with
  | nil => intro iter; rfl
  | cons v vs ih =>
    intro iter
    simp only [videosEvents]
    rw [savesOf_append, savesOf_cons_zeroGrad, savesOf_clipsEvents, ih]
    rfl

theorem epochBlock_err (D : List (List Clip)) (orders : Nat → List Nat)
    (B N epoch : Nat) (hI : Bool) (hN : N ≠ 0)
    (h : hI = true ∨ 0 < totalClips D (orders epoch)) :
    (epochBlock D orders B N epoch hI).err = none := by
  have hb : (hI || decide (0 < totalClips D (orders epoch))) = true := by
    rcases h with h | h <;> simp [h]
  simp only [epochBlock]
  rw [if_neg hN]
  by_cases hs : (epoch + 1) % N = 0
  · rw [if_pos hs, if_pos hb]
  · rw [if_neg hs]

theorem epochBlock_hasImgs (D : List (List Clip)) (orders : Nat → List Nat)
    (B N epoch : Nat) (hI : Bool) :
    (epochBlock D orders B N epoch hI).hasImgs =
      (hI || decide (0 < totalClips D (orders epoch))) := by
  simp only [epochBlock]
  by_cases hN0 : N = 0
  · rw [if_pos hN0]
  · rw [if_neg hN0]
    by_cases hs : (epoch + 1) % N = 0
    · rw [if_pos hs]
      by_cases hb : (hI || decide (0 < totalClips D (orders epoch))) = true
      · rw [if_pos hb]
      · rw [if_neg hb]
    · rw [if_neg hs]

theorem epochBlock_events (D : List (List Clip)) (orders : Nat → List Nat)
    (B N epoch : Nat) (hI : Bool) (hN : N ≠ 0)
    (h : hI = true ∨ 0 < totalClips D (orders epoch)) :
    (epochBlock D orders B N epoch hI).events =
      videosEvents D B epoch 0 (orders epoch) ++
        (if (epoch + 1) % N = 0 then
          [Event.saveM (modelFilename (epoch + 1)),
           Event.saveImage (imageFilename (epoch + 1))]
        else []) := by
  have hb : (hI || decide (0 < totalClips D (orders epoch))) = true := by
    rcases h with h | h <;> simp [h]
  simp only [epochBlock]
  rw [if_neg hN]
  by_cases hs : (epoch + 1) % N = 0
  · rw [if_pos hs, if_pos hb, if_pos hs]
  · rw [if_neg hs, if_neg hs, List.append_nil]

theorem countE_zeroGrad_saveTail (u : Nat) (c : Prop) [Decidable c]
    (f g : String) :
    countE (Event.zeroGrad u)
      (if c then [Event.saveM f, Event.saveImage g] else []) = 0 := by
  by_cases h : c
  · rw [if_pos h]; rfl
  · rw [if_neg h]; rfl

theorem countE_optStep_saveTail (u d : Nat) (c : Prop) [Decidable c]
    (f g : String) :
    countE (Event.optStep u d)
      (if c then [Event.saveM f, Event.saveImage g] else []) = 0 := by
  by_cases h : c
  · rw [if_pos h]; rfl
  · rw [if_neg h]; rfl

theorem logsOf_saveTail (tag : String) (c : Prop) [Decidable c]
    (f g : String) :
    logsOf tag (if c then [Event.saveM f, Event.saveImage g] else []) = [] := by
  by_cases h : c
  · rw [if_pos h]; rfl
  · rw [if_neg h]; rfl

theorem savesOf_saveTail (c : Prop) [Decidable c] (f g : String) :
    savesOf (if c then [Event.saveM f, Event.saveImage g] else []) =
      if c then [f] else [] := by
  by_cases h : c
  · rw [if_pos h, if_pos h]; rfl
  · rw [if_neg h, if_neg h]; rfl

theorem runEpochs_err_none (D : List (List Clip)) (orders : Nat → List Nat)
    (B N : Nat) (hN : N ≠ 0) (hcl : ∀ e, 0 < totalClips D (orders e)) :
    ∀ (n e : Nat) (hI : Bool), (runEpochs D orders B N e n hI).err = none := by
  intro n
  induction n with
  | zero => intro e hI; rfl
  | succ n ih =>
    intro e hI
    simp only [runEpochs]
    rw [epochBlock_err D orders B N e hI hN (Or.inr (hcl e))]
    exact ih (e + 1) _

theorem runEpochs_countE_zeroGrad (D : List (List Clip))
    (orders : Nat → List Nat) (B N u : Nat) (hN : N ≠ 0)
    (hcl : ∀ e, 0 < totalClips D (orders e))
    (hord : ∀ e, (orders e).Nodup ∧ ∀ w, w ∈ orders e ↔ w < D.length)
    (hu : u < D.length) :
    ∀ (n e : Nat) (hI : Bool),
      countE (Event.zeroGrad u) (runEpochs D orders B N e n hI).events = n := by
  intro n
  induction n with
  | zero => intro e hI; rfl
  | succ n ih =>
    intro e hI
    simp only [runEpochs]
    rw [epochBlock_err D orders B N e hI hN (Or.inr (hcl e))]
    show countE (Event.zeroGrad u)
      ((epochBlock D orders B N e hI).events ++ _) = n + 1
    rw [countE_append, epochBlock_events D orders B N e hI hN (Or.inr (hcl e)),
      countE_append, countE_zeroGrad_videosEvents, countE_zeroGrad_saveTail,
      ih (e + 1) _]
    have hcount : (orders e).count u = 1 :=
      List.count_eq_one_of_mem (hord e).1 (((hord e).2 u).mpr hu)
    rw [hcount]
    omega

theorem runEpochs_countE_optStep (D : List (List Clip))
    (orders : Nat → List Nat) (B N u d : Nat) (hN : N ≠ 0)
    (hcl : ∀ e, 0 < totalClips D (orders e))
    (hord : ∀ e, (orders e).Nodup ∧ ∀ w, w ∈ orders e ↔ w < D.length)
    (hu : u < D.length) (hd : d < (D.getD u []).length) :
    ∀ (n e : Nat) (hI : Bool),
      countE (Event.optStep u d) (runEpochs D orders B N e n hI).events = n := by
  intro n
  induction n with
  | zero => intro e hI; rfl
  | succ n ih =>
    intro e hI
    simp only [runEpochs]
    rw [epochBlock_err D orders B N e hI hN (Or.inr (hcl e))]
    show countE (Event.optStep u d)
      ((epochBlock D orders B N e hI).events ++ _) = n + 1
    rw [countE_append, epochBlock_events D orders B N e hI hN (Or.inr (hcl e)),
      countE_append, countE_optStep_videosEvents, countE_optStep_saveTail,
      ih (e + 1) _]
    have hcount : (orders e).count u = 1 :=
      List.count_eq_one_of_mem (hord e).1 (((hord e).2 u).mpr hu)
    rw [hcount, if_pos hd]
    omega

theorem runEpochs_logsOf (D : List (List Clip)) (orders : Nat → List Nat)
    (B N : Nat) (tag : String) (htag : tag ∈ lossTags) (hN : N ≠ 0)
    (hB : 0 < B) (htc : ∀ e, totalClips D (orders e) = B) :
    ∀ (n e : Nat) (hI : Bool),
      logsOf tag (runEpochs D orders B N e n hI).events =
        List.range' (e * B) (n * B) := by
  have hcl : ∀ e, 0 < totalClips D (orders e) := fun e => by rw [htc e]; omega
  intro n
  induction n with
  | zero =>
    intro e hI
    rw [Nat.zero_mul]
    rfl
  | succ n ih =>
    intro e hI
    simp only [runEpochs]
    rw [epochBlock_err D orders B N e hI hN (Or.inr (hcl e))]
    show logsOf tag ((epochBlock D orders B N e hI).events ++ _) =
      List.range' (e * B) ((n + 1) * B)
    rw [logsOf_append, epochBlock_events D orders B N e hI hN (Or.inr (hcl e)),
      logsOf_append, logsOf_videosEvents tag htag, logsOf_saveTail,
      ih (e + 1) _, htc e, List.append_nil]
    have h1 : (e + 1) * B = (e * B + 0) + 1 * B := by ring
    rw [h1, List.range'_append]
    congr 1
    ring

theorem runEpochs_savesOf (D : List (List Clip)) (orders : Nat → List Nat)
    (B N : Nat) (hN : N ≠ 0) (hcl : ∀ e, 0 < totalClips D (orders e)) :
    ∀ (n e : Nat) (hI : Bool),
      savesOf (runEpochs D orders B N e n hI).events =
        ((List.range' (e + 1) n).filter (fun k => k % N = 0)).map
          modelFilename := by
  intro n
  induction n with
  | zero => intro e hI; rfl
  | succ n ih =>
    intro e hI
    simp only [runEpochs]
    rw [epochBlock_err D orders B N e hI hN (Or.inr (hcl e))]
    show savesOf ((epochBlock D orders B N e hI).events ++ _) = _
    rw [savesOf_append, epochBlock_events D orders B N e hI hN (Or.inr (hcl e)),
      savesOf_append, savesOf_videosEvents, savesOf_saveTail, ih (e + 1) _,
      List.range'_succ, List.filter_cons, List.nil_append]
    by_cases hs : (e + 1) % N = 0
    · rw [if_pos hs, if_pos (by simpa using hs)]
      rfl
    · rw [if_neg hs, if_neg (by simpa using hs)]
      rfl

theorem countE_zeroGrad_loadTail (u : Nat) (c : Prop) [Decidable c]
    (f : String) :
    countE (Event.zeroGrad u) (if c then [Event.loadM f] else []) = 0 := by
  by_cases h : c
  · rw [if_pos h]; rfl
  · rw [if_neg h]; rfl

theorem countE_optStep_loadTail (u d : Nat) (c : Prop) [Decidable c]
    (f : String) :
    countE (Event.optStep u d) (if c then [Event.loadM f] else []) = 0 := by
  by_cases h : c
  · rw [if_pos h]; rfl
  · rw [if_neg h]; rfl

theorem logsOf_loadTail (tag : String) (c : Prop) [Decidable c] (f : String) :
    logsOf tag (if c then [Event.loadM f] else []) = [] := by
  by_cases h : c
  · rw [if_pos h]; rfl
  · rw [if_neg h]; rfl

theorem savesOf_loadTail (c : Prop) [Decidable c] (f : String) :
    savesOf (if c then [Event.loadM f] else []) = [] := by
  by_cases h : c
  · rw [if_pos h]; rfl
  · rw [if_neg h]; rfl

theorem countE_zeroGrad_saveSingle (u : Nat) (c : Prop) [Decidable c]
    (f : String) :
    countE (Event.zeroGrad u) (if c then [Event.saveM f] else []) = 0 := by
  by_cases h : c
  · rw [if_pos h]; rfl
  · rw [if_neg h]; rfl

theorem countE_optStep_saveSingle (u d : Nat) (c : Prop) [Decidable c]
    (f : String) :
    countE (Event.optStep u d) (if c then [Event.saveM f] else []) = 0 := by
  by_cases h : c
  · rw [if_pos h]; rfl
  · rw [if_neg h]; rfl

theorem logsOf_saveSingle (tag : String) (c : Prop) [Decidable c]
    (f : String) :
    logsOf tag (if c then [Event.saveM f] else []) = [] := by
  by_cases h : c
  · rw [if_pos h]; rfl
  · rw [if_neg h]; rfl

theorem savesOf_saveSingle (c : Prop) [Decidable c] (f : String) :
    savesOf (if c then [Event.saveM f] else []) = if c then [f] else [] := by
  by_cases h : c
  · rw [if_pos h, if_pos h]; rfl
  · rw [if_neg h, if_neg h]; rfl

/-- `runTrain` for an empty epoch range: the loop never runs, the final save
dereferences the never-bound `epoch` and the call dies with
`UnboundLocalError`, the optional resume load being the only event. -/
theorem runTrain_empty (D : List (List Clip)) (orders : Nat → List Nat)
    (B N eS eE : Nat) (h : eE ≤ eS) :
    runTrain D orders B N eS eE =
      ⟨if 0 < eS then [Event.loadM (modelFilename eS)] else [],
       some PyErr.unboundLocalErr⟩ := by
  have h0 : eE - eS = 0 := by omega
  simp only [runTrain, h0, runEpochs]
  rw [if_neg (by omega : ¬eS < eE)]
  simp

/-- `runTrain` for a non-empty epoch range under a positive save period and a
non-empty clip load: no exception, and the trace splits into the resume load,
the epoch loop and the final conditional save. -/
theorem runTrain_events (D : List (List Clip)) (orders : Nat → List Nat)
    (B N eS eE : Nat) (hN : N ≠ 0) (hcl : ∀ e, 0 < totalClips D (orders e))
    (hse : eS < eE) :
    (runTrain D orders B N eS eE).events =
      (if 0 < eS then [Event.loadM (modelFilename eS)] else []) ++
        (runEpochs D orders B N eS (eE - eS) false).events ++
        (if eE % N ≠ 0 then [Event.saveM (modelFilename eE)] else []) ∧
    (runTrain D orders B N eS eE).err = none := by
  simp only [runTrain]
  rw [runEpochs_err_none D orders B N hN hcl]
  rw [if_pos hse, if_neg hN]
  by_cases hf : eE % N ≠ 0
  · rw [if_pos hf, if_pos hf]
    exact ⟨rfl, rfl⟩
  · rw [if_neg hf, if_neg hf]
    exact ⟨(List.append_nil _).symm, rfl⟩

/-- C10: when `epoch_end ≤ epoch_start`, the epoch loop body never runs, the
final unconditional save (lines 200-202) reads the never-bound loop variable
`epoch`, the call dies with an unbound-local error, and no checkpoint is
written. -/
theorem train_empty_range_unbound_epoch (D : List (List Clip))
    (orders : Nat → List Nat) (B N eS eE : Nat) (h : eE ≤ eS) :
    (runTrain D orders B N eS eE).err = some PyErr.unboundLocalErr ∧
    savesOf (runTrain D orders B N eS eE).events = [] := by
  rw [runTrain_empty D orders B N eS eE h]
  exact ⟨rfl, savesOf_loadTail _ _⟩

/-- Witness for C10 at `epoch_start = epoch_end = 3`. -/
theorem train_empty_range_unbound_epoch_witness :
    (runTrain [[(0, 5)]] (fun _ => [0]) 1 5 3 3).err =
      some PyErr.unboundLocalErr ∧
    savesOf (runTrain [[(0, 5)]] (fun _ => [0]) 1 5 3 3).events = [] :=
  train_empty_range_unbound_epoch [[(0, 5)]] (fun _ => [0]) 1 5 3 3 (le_refl 3)

/-- C1: in every epoch, for every video the loader yields (any shuffled
permutation of the dataset), gradients are zeroed exactly once per video, and
for every clip of that video the generator runs once, the four losses are
computed once, back-propagation runs once and exactly one optimizer step is
applied; over the whole run each video's gradients are zeroed once per epoch
and each clip gets exactly one optimizer step per epoch — never one per video
or one per epoch overall. -/
theorem train_one_step_per_clip (D : List (List Clip))
    (orders : Nat → List Nat) (B N eS eE e v c : Nat)
    (hN : 0 < N)
    (hord : ∀ k, (orders k).Nodup ∧ ∀ w, w ∈ orders k ↔ w < D.length)
    (hcl : ∀ k, 0 < totalClips D (orders k))
    (hv : v < D.length) (hc : c < (D.getD v []).length) :
    countE (Event.zeroGrad v) (videosEvents D B e 0 (orders e)) = 1 ∧
    countE (Event.genRun v c) (videosEvents D B e 0 (orders e)) = 1 ∧
    countE (Event.lossesComputed v c) (videosEvents D B e 0 (orders e)) = 1 ∧
    countE (Event.backward v c) (videosEvents D B e 0 (orders e)) = 1 ∧
    countE (Event.optStep v c) (videosEvents D B e 0 (orders e)) = 1 ∧
    countE (Event.zeroGrad v) (runTrain D orders B N eS eE).events = eE - eS ∧
    countE (Event.optStep v c) (runTrain D orders B N eS eE).events =
      eE - eS := by
  have hcount : (orders e).count v = 1 :=
    List.count_eq_one_of_mem (hord e).1 (((hord e).2 v).mpr hv)
  have hN' : N ≠ 0 := by omega
  refine ⟨?_, ?_, ?_, ?_, ?_, ?_, ?_⟩
  · rw [countE_zeroGrad_videosEvents, hcount]
  · rw [countE_genRun_videosEvents, hcount, if_pos hc]
  · rw [countE_lossesComputed_videosEvents, hcount, if_pos hc]
  · rw [countE_backward_videosEvents, hcount, if_pos hc]
  · rw [countE_optStep_videosEvents, hcount, if_pos hc]
  · by_cases hse : eS < eE
    · obtain ⟨hev, _⟩ := runTrain_events D orders B N eS eE hN' hcl hse
      rw [hev, countE_append, countE_append, countE_zeroGrad_loadTail,
        runEpochs_countE_zeroGrad D orders B N v hN' hcl hord hv,
        countE_zeroGrad_saveSingle]
      omega
    · rw [runTrain_empty D orders B N eS eE (by omega)]
      rw [show eE - eS = 0 by omega]
      exact countE_zeroGrad_loadTail _ _ _
  · by_cases hse : eS < eE
    · obtain ⟨hev, _⟩ := runTrain_events D orders B N eS eE hN' hcl hse
      rw [hev, countE_append, countE_append, countE_optStep_loadTail,
        runEpochs_countE_optStep D orders B N v c hN' hcl hord hv hc,
        countE_optStep_saveSingle]
      omega
    · rw [runTrain_empty D orders B N eS eE (by omega)]
      rw [show eE - eS = 0 by omega]
      exact countE_optStep_loadTail _ _ _ _

/-- Witness for C1 at one video of two clips, one epoch. -/
theorem train_one_step_per_clip_witness :
    countE (Event.zeroGrad 0) (videosEvents [[(0, 5), (5, 10)]] 2 0 0 [0]) = 1 ∧
    countE (Event.genRun 0 1) (videosEvents [[(0, 5), (5, 10)]] 2 0 0 [0]) = 1 ∧
    countE (Event.lossesComputed 0 1)
      (videosEvents [[(0, 5), (5, 10)]] 2 0 0 [0]) = 1 ∧
    countE (Event.backward 0 1)
      (videosEvents [[(0, 5), (5, 10)]] 2 0 0 [0]) = 1 ∧
    countE (Event.optStep 0 1)
      (videosEvents [[(0, 5), (5, 10)]] 2 0 0 [0]) = 1 ∧
    countE (Event.zeroGrad 0)
      (runTrain [[(0, 5), (5, 10)]] (fun _ => [0]) 2 5 0 1).events = 1 - 0 ∧
    countE (Event.optStep 0 1)
      (runTrain [[(0, 5), (5, 10)]] (fun _ => [0]) 2 5 0 1).events = 1 - 0 :=
  by
  apply train_one_step_per_clip [[(0, 5), (5, 10)]] (fun _ => [0]) 2 5 0 1 0 0 1
  · decide
  · intro k
    show ([0] : List Nat).Nodup ∧
      ∀ w, w ∈ ([0] : List Nat) ↔ w < ([[(0, 5), (5, 10)]] : List (List Clip)).length
    refine ⟨by decide, ?_⟩
    intro w
    show w ∈ ([0] : List Nat) ↔ w < 1
    simp only [List.mem_singleton]
    omega
  · intro k
    show 0 < totalClips [[(0, 5), (5, 10)]] [0]
    decide
  · decide
  · decide

/-- The epochs whose checkpoints one `train(eS, eE, _, N)` run writes: the
in-loop saves at the multiples of `N` inside `(eS, eE]`, then the final
unconditional save of `eE` when `eE` is not a multiple of `N`. -/
def savedEpochs (eS eE N : Nat) : List Nat :=
  ((List.range' (eS + 1) (eE - eS)).filter (fun k => k % N = 0)) ++
    (if eE % N ≠ 0 then [eE] else [])

/-- C5: over a non-empty epoch range, the run writes exactly the checkpoints
`model_epoch_<zero-padded k>.pkl` for the epochs `k` of `savedEpochs`: the
in-loop save fires exactly when `(epoch + 1) % save_every_x_epochs == 0`, one
extra unconditional save happens after the loop iff `epoch_end` is not a
multiple of `save_every_x_epochs`, and a checkpoint keyed by epoch number 7
is named `model_epoch_00007.pkl`. -/
theorem train_checkpoint_cadence (D : List (List Clip))
    (orders : Nat → List Nat) (B N eS eE k : Nat)
    (hN : 0 < N) (hse : eS < eE) (hcl : ∀ e, 0 < totalClips D (orders e)) :
    (runTrain D orders B N eS eE).err = none ∧
    savesOf (runTrain D orders B N eS eE).events =
      (savedEpochs eS eE N).map modelFilename ∧
    (k ∈ savedEpochs eS eE N ↔
      eS < k ∧ k ≤ eE ∧ (k % N = 0 ∨ k = eE)) ∧
    modelFilename 7 = "model_epoch_00007.pkl" := by
  have hN' : N ≠ 0 := by omega
  obtain ⟨hev, herr⟩ := runTrain_events D orders B N eS eE hN' hcl hse
  refine ⟨herr, ?_, ?_, ?_⟩
  · rw [hev, savesOf_append, savesOf_append, savesOf_loadTail,
      runEpochs_savesOf D orders B N hN' hcl, savesOf_saveSingle,
      List.nil_append]
    by_cases hf : eE % N ≠ 0
    · rw [if_pos hf]
      simp [savedEpochs, hf]
    · rw [if_neg hf]
      simp [savedEpochs, hf]
  · constructor
    · intro hk
      rcases List.mem_append.mp hk with hk | hk
      · rw [List.mem_filter] at hk
        obtain ⟨hkr, hkm⟩ := hk
        rw [List.mem_range'_1] at hkr
        refine ⟨by omega, by omega, Or.inl (by simpa using hkm)⟩
      · by_cases hf : eE % N ≠ 0
        · rw [if_pos hf, List.mem_singleton] at hk
          exact ⟨by omega, by omega, Or.inr hk⟩
        · rw [if_neg hf] at hk
          exact absurd hk (List.not_mem_nil k)
    · rintro ⟨h1, h2, h3⟩
      by_cases hk0 : k % N = 0
      · apply List.mem_append_left
        rw [List.mem_filter]
        exact ⟨List.mem_range'_1.mpr ⟨by omega, by omega⟩, by simpa using hk0⟩
      · rcases h3 with h3 | h3
        · exact absurd h3 hk0
        · subst h3
          apply List.mem_append_right
          rw [if_pos hk0]
          exact List.mem_singleton.mpr rfl
  · rfl

/-- Witness for C5: epochs `0 → 7`, saving every 5 epochs; the saved epochs
are 5 (in-loop) and 7 (final, since 7 is not a multiple of 5). -/
theorem train_checkpoint_cadence_witness :
    (runTrain [[(0, 2)]] (fun _ => [0]) 1 5 0 7).err = none ∧
    savesOf (runTrain [[(0, 2)]] (fun _ => [0]) 1 5 0 7).events =
      (savedEpochs 0 7 5).map modelFilename ∧
    (5 ∈ savedEpochs 0 7 5 ↔ 0 < 5 ∧ 5 ≤ 7 ∧ (5 % 5 = 0 ∨ 5 = 7)) ∧
    modelFilename 7 = "model_epoch_00007.pkl" :=
  by
  apply train_checkpoint_cadence [[(0, 2)]] (fun _ => [0]) 1 5 0 7 5
  · decide
  · decide
  · intro e
    show 0 < totalClips [[(0, 2)]] [0]
    decide

/-- C9 (amended): each of the four loss terms gets exactly one scalar-series
emission per clip (the claim's "two" does not hold — see the counterexample),
keyed by the global step `epoch * total_batches_per_epoch +
clip_sequence_number`; over the run, each series' steps are exactly
`eS*B, …, eE*B - 1` in order — strictly increasing, each step hit exactly
once (one clip, one emission). -/
theorem train_scalar_log_stream (D : List (List Clip))
    (orders : Nat → List Nat) (B N eS eE : Nat) (tag : String)
    (hN : 0 < N) (hB : 0 < B) (hse : eS < eE)
    (htc : ∀ e, totalClips D (orders e) = B) (htag : tag ∈ lossTags) :
    logsOf tag (runTrain D orders B N eS eE).events =
      List.range' (eS * B) ((eE - eS) * B) ∧
    (logsOf tag (runTrain D orders B N eS eE).events).Pairwise (· < ·) ∧
    ∀ s : Nat, (logsOf tag (runTrain D orders B N eS eE).events).count s =
      if eS * B ≤ s ∧ s < eE * B then 1 else 0 := by
  have hN' : N ≠ 0 := by omega
  have hcl : ∀ e, 0 < totalClips D (orders e) := fun e => by rw [htc e]; omega
  obtain ⟨hev, _⟩ := runTrain_events D orders B N eS eE hN' hcl hse
  have hlogs : logsOf tag (runTrain D orders B N eS eE).events =
      List.range' (eS * B) ((eE - eS) * B) := by
    rw [hev, logsOf_append, logsOf_append, logsOf_loadTail,
      runEpochs_logsOf D orders B N tag htag hN' hB htc, logsOf_saveSingle,
      List.nil_append, List.append_nil]
  have hpair : (List.range' (eS * B) ((eE - eS) * B)).Pairwise (· < ·) :=
    List.pairwise_lt_range' _ _
  refine ⟨hlogs, by rw [hlogs]; exact hpair, ?_⟩
  intro s
  rw [hlogs]
  have hsub : (eE - eS) * B = eE * B - eS * B := Nat.sub_mul eE eS B
  have hle : eS * B ≤ eE * B := Nat.mul_le_mul_right B (by omega)
  by_cases hs : eS * B ≤ s ∧ s < eE * B
  · rw [if_pos hs]
    exact List.count_eq_one_of_mem (hpair.imp ne_of_lt)
      (List.mem_range'_1.mpr ⟨hs.1, by omega⟩)
  · rw [if_neg hs]
    rw [List.count_eq_zero]
    intro hmem
    rw [List.mem_range'_1] at hmem
    exact hs ⟨hmem.1, by omega⟩

/-- Witness for C9 (amended) at one video of one clip, epochs `0 → 2`. -/
theorem train_scalar_log_stream_witness :
    logsOf "Loss context"
      (runTrain [[(0, 2)]] (fun _ => [0]) 1 5 0 2).events =
      List.range' (0 * 1) ((2 - 0) * 1) ∧
    (logsOf "Loss context"
      (runTrain [[(0, 2)]] (fun _ => [0]) 1 5 0 2).events).Pairwise (· < ·) ∧
    ∀ s : Nat,
      (logsOf "Loss context"
        (runTrain [[(0, 2)]] (fun _ => [0]) 1 5 0 2).events).count s =
      if 0 * 1 ≤ s ∧ s < 2 * 1 then 1 else 0 := by
  apply train_scalar_log_stream [[(0, 2)]] (fun _ => [0]) 1 5 0 2 "Loss context"
  · decide
  · decide
  · decide
  · intro e
    show totalClips [[(0, 2)]] [0] = 1
    rfl
  · decide

/-- C9 counterexample: a run of one epoch over one video of one clip emits
exactly one scalar entry for the "Loss context" series — the claim's two
emissions per loss term per clip do not happen. -/
theorem train_two_emissions_per_term_refuted :
    logsOf "Loss context"
      (runTrain [[(0, 2)]] (fun _ => [0]) 1 5 0 1).events = [0] ∧
    (logsOf "Loss context"
      (runTrain [[(0, 2)]] (fun _ => [0]) 1 5 0 1).events).length ≠ 2 := by
  exact ⟨rfl, by decide⟩

/-! ## The loss weighting of `NoGAN.train` (src/NoGan.py lines 142-145) -/

/-- Parameter names of `NoGAN.train` (line 80) — the controller's run
configuration. -/
def trainParams : List String :=
  ["epoch_start", "epoch_end", "batch_size", "save_every_x_epochs"]

/-- Parameter names of `NoGAN.__init__` (line 20) — the controller's
construction configuration. -/
def initParams : List String := ["name", "im_size", "store_path", "device_str"]

/-- The dict literal rebuilt inside the clip loop (line 143):
`loss_weights = \x7b"context": 1, "recons": 1, "instant": 1, "longterm": 1\x7d`. -/
def loss_weights : List (String × Int) :=
  [("context", 1), ("recons", 1), ("instant", 1), ("longterm", 1)]

/-- Dict lookup `loss_weights[key]`. -/
def weightOf (key : String) : Int := (loss_weights.lookup key).getD 0

/-- The total loss of lines 144-145, with the four scalar losses abstract:
`loss = loss_weights["context"]*context_loss + loss_weights["recons"]*reconst_loss
 + loss_weights["instant"]*instant_loss + loss_weights["longterm"]*longterm_loss`. -/
def totalLoss (context_loss recons_loss instant_loss longterm_loss : ℚ) : ℚ :=
  (weightOf "context" : ℚ) * context_loss +
    (weightOf "recons" : ℚ) * recons_loss +
    (weightOf "instant" : ℚ) * instant_loss +
    (weightOf "longterm" : ℚ) * longterm_loss

/-- C6 (amended): for every clip the total training loss is the weighted sum
of the four losses under the weight map hard-coded at line 143, whose weights
are all 1 — so the total is simply the sum of the four terms. -/
theorem train_total_loss_unit_weights :
    weightOf "context" = 1 ∧ weightOf "recons" = 1 ∧ weightOf "instant" = 1 ∧
    weightOf "longterm" = 1 ∧
    ∀ context_loss recons_loss instant_loss longterm_loss : ℚ,
      totalLoss context_loss recons_loss instant_loss longterm_loss =
        context_loss + recons_loss + instant_loss + longterm_loss := by
  refine ⟨rfl, rfl, rfl, rfl, ?_⟩
  intro c r i l
  show ((1 : Int) : ℚ) * c + ((1 : Int) : ℚ) * r + ((1 : Int) : ℚ) * i +
    ((1 : Int) : ℚ) * l = c + r + i + l
  push_cast
  ring

/-- C6 counterexample: the weight map is not a configuration point of the
training controller — `loss_weights` is a literal local to the clip loop; no
parameter of `train` or of `__init__` carries it, and its weights are the
fixed constants 1. -/
theorem loss_weights_not_a_configuration_point :
    ("loss_weights" ∉ trainParams) ∧ ("loss_weights" ∉ initParams) ∧
    weightOf "context" = 1 ∧ weightOf "recons" = 1 ∧
    weightOf "instant" = 1 ∧ weightOf "longterm" = 1 := by
  exact ⟨by decide, by decide, rfl, rfl, rfl, rfl⟩

/-! ## `NoGAN.infer` (src/NoGan.py lines 204-262) -/

/-- The attributes `NoGAN.__init__` binds on `self` (lines 20-54). -/
def noganAttrs : List String :=
  ["name", "im_size", "store_path", "input_store_path", "training_data_file",
   "evaluation_data_file", "model_store_path", "gen_image_store_path",
   "output_store_path", "log_path", "device", "ContextNet", "AnomaNet",
   "learning_rate", "optimizer", "logger"]

/-- Python attribute lookup on a `NoGAN` instance; `none` means
`AttributeError`. -/
def getattrNoGan (a : String) : Option String :=
  if a ∈ noganAttrs then some a else none

/-- The per-clip body of `infer` (lines 234-247): evaluate `self.G` — an
attribute `__init__` never assigns (the generator is bound to
`self.AnomaNet`) — then run it on `imgs[:, :-1]` and collect the
reconstruction / instant / long-term outputs.  `fw` abstracts the forward
pass the attribute would provide if it existed. -/
def inferClips (fw : Clip → List Int × List Int × List Int) :
    List Clip → Except PyErr (List Int × List Int × List Int)
  | [] => .ok ([], [], [])
  | c :: rest =>
    match getattrNoGan "G" with
    | none => .error (PyErr.attributeErr "G")
    | some _ =>
      match inferClips fw rest with
      | .error er => .error er
      | .ok (r, i, l) => .ok ((fw c).1 ++ r, (fw c).2.1 ++ i, (fw c).2.2 ++ l)

/-- One video of `infer` (lines 230-251): per-clip outputs concatenated along
the time axis in clip order (`torch.cat`, which raises on an empty list). -/
def inferVideo (fw : Clip → List Int × List Int × List Int)
    (clips : List Clip) : Except PyErr (List Int × List Int × List Int) :=
  match clips with
  | [] => .error PyErr.runtimeErr
  | _ => inferClips fw clips

/-- The video loop of `infer`, collecting the three per-video lists. -/
def inferVideos (fw : Clip → List Int × List Int × List Int) :
    List (List Clip) →
      Except PyErr (List (List Int) × List (List Int) × List (List Int))
  | [] => .ok ([], [], [])
  | clips :: rest =>
    match inferVideo fw clips with
    | .error er => .error er
    | .ok (r, i, l) =>
      match inferVideos fw rest with
      | .error er => .error er
      | .ok (rs, ist, ls) => .ok (r :: rs, i :: ist, l :: ls)

/-- `NoGAN.infer(epoch, batch_size, data_set)` (lines 204-262): the split
assert of line 205, then the video loop; on success the three per-video lists
are persisted as one artifact keyed by `(epoch, data_set)` through its
filename. -/
def runInfer (fw : Clip → List Int × List Int × List Int) (epoch : Nat)
    (data_set : String) (D : List (List Clip)) :
    Except PyErr
      (String × (List (List Int) × List (List Int) × List (List Int))) :=
  if data_set = "test_set" ∨ data_set = "training_set" then
    match inferVideos fw D with
    | .error er => .error er
    | .ok out => .ok (outputFilename epoch data_set, out)
  else .error PyErr.assertionErr

/-- C3 / the `self.G` defect evaluated at a failing input: `G` is not among
the attributes `__init__` assigns, so inference over any split holding at
least one clip raises `AttributeError` at the very first clip — nothing is
collected and no artifact is persisted, whatever the forward pass would have
returned. -/
theorem infer_G_attribute_error :
    getattrNoGan "G" = none ∧
    runInfer (fun _ => ([0], [0], [0])) 1 "test_set" [[(0, 5)]] =
      Except.error (PyErr.attributeErr "G") := ⟨rfl, rfl⟩

end NoGan
